/-
  Verification of the note-lifecycle, gesture and geometry core of the
  pablocaro/music-tools repository.

  Namespace `Exp` embeds src/piano-experimental/audio.js: the AudioEngine
  with the cancellable Pending state.  The synchronous part of each method
  is embedded directly.  The single suspension point of `playNote`
  (the awaited init) is modelled by a continuation token recorded in
  `outstanding` and resumed by an explicit `resolve` event; `setTimeout`
  handles are modelled by the `armed` list (timers that may still fire),
  from which `clearTimeout` removes them, so a cancelled timer can never
  fire.  JS `Map`s are modelled by association lists with in-place update,
  which matches `Map.set` on an existing key; the in-place mutation of a
  pending entry's `shouldCancel` field is modelled as a map update, which
  is faithful because every read of the entry goes through the map.
  Sound attacks and releases (`triggerAttack` / `triggerRelease`) are
  recorded in an event log by slice index (the note string is the
  deterministic image of the index under `getNote`).

  Namespace `Main` embeds src/unnamed/part_001: the synchronous
  AudioEngine of that file and the InteractionManager.  Pointer events
  carry the geometric readings (hit slice, ring membership, polar angle,
  touch separation) that the handlers obtain from the pure geometry
  queries and from elementFromPoint.  The GeometryEngine hit-test is
  embedded over the real numbers with Complex.arg playing the role of
  Math.atan2.
-/
import Mathlib

/-- The shared scale constant `C_MAJOR_SCALE` of both source files. -/
def C_MAJOR_SCALE : List String := ["C", "D", "E", "F", "G", "A", "B"]

/-- `getNote(index)`: `C_MAJOR_SCALE[index % 7] + (3 + Math.floor(index / 7))`. -/
def getNote (index : Nat) : String :=
  C_MAJOR_SCALE.getD (index % 7) "C" ++ toString (3 + index / 7)

/-- Sound events emitted to the synthesizer, tracked by slice index. -/
inductive SEv : Type
  | attack (i : Nat)
  | release (i : Nat)
  deriving DecidableEq, Repr

/-- A JS `Map` with `Nat` keys, as an association list (no duplicate keys
arise from the operations below; `aset` updates in place like `Map.set`). -/
abbrev AMap (α : Type) : Type := List (Nat × α)

/-- `Map.get`, as an `Option`. -/
def aget {α : Type} : AMap α → Nat → Option α
  | [], _ => none
  | (k, v) :: t, i => if k = i then some v else aget t i

/-- `Map.set`: replace in place if the key is present, else append. -/
def aset {α : Type} : AMap α → Nat → α → AMap α
  | [], i, v => [(i, v)]
  | (k, w) :: t, i, v => if k = i then (k, v) :: t else (k, w) :: aset t i v

/-- `Map.delete`. -/
def adel {α : Type} : AMap α → Nat → AMap α
  | [], _ => []
  | (k, w) :: t, i => if k = i then adel t i else (k, w) :: adel t i

/-- `Map.has`. -/
def ahas {α : Type} (m : AMap α) (i : Nat) : Bool :=
  (aget m i).isSome

/-- Does some entry of the map have this value (used for the set of timer
ids stored in `lockTimeouts`)? -/
def tidInTable : AMap Nat → Nat → Bool
  | [], _ => false
  | (_, v) :: t, tid => v = tid || tidInTable t tid

namespace Exp

/-- One value of the `pendingNotes` map of audio.js:
`{ shouldCancel: boolean, note: string }`. -/
structure PendingEntry : Type where
  shouldCancel : Bool
  note : String
  deriving DecidableEq, Repr

/-- The state of the experimental AudioEngine together with the scheduler
bookkeeping of the event-loop model.  `outstanding` holds the continuation
tokens of `playNote` calls that are awaiting init (token id, slice index);
`armed` holds the auto-lock timers that have been scheduled and neither
fired nor been cancelled (timer id, slice index). -/
structure Config : Type where
  pendingNotes : AMap PendingEntry
  activeNotes : AMap String
  lockedDrones : AMap String
  lockTimeouts : AMap Nat
  outstanding : AMap Nat
  armed : AMap Nat
  nextToken : Nat
  nextTid : Nat
  log : List SEv
  deriving DecidableEq, Repr

/-- The empty engine, as built by the constructor. -/
def init : Config :=
  { pendingNotes := [], activeNotes := [], lockedDrones := [],
    lockTimeouts := [], outstanding := [], armed := [],
    nextToken := 0, nextTid := 0, log := [] }

/-- The synchronous part of `playNote(index)`, up to `await this.init()`:
skip if locked, skip if active, otherwise record the pending entry
`{ shouldCancel: false, note }` and suspend (a fresh continuation token
joins `outstanding`). -/
def playNote (s : Config) (i : Nat) : Config :=
  if ahas s.lockedDrones i then s
  else if ahas s.activeNotes i then s
  else
    { s with pendingNotes := aset s.pendingNotes i ⟨false, getNote i⟩,
             outstanding := aset s.outstanding s.nextToken i,
             nextToken := s.nextToken + 1 }

/-- The continuation of `playNote` after `await this.init()` resolves,
for the call identified by token `t` (no-op if the token has already
resumed).  It re-reads the pending entry: if it is gone or marked
`shouldCancel`, delete it and return without playing; otherwise trigger
the attack, move the index from pending to active and arm the auto-lock
timeout. -/
def resumePlayNote (s : Config) (t : Nat) : Config :=
  match aget s.outstanding t with
  | none => s
  | some i =>
    let s1 := { s with outstanding := adel s.outstanding t }
    match aget s1.pendingNotes i with
    | none => { s1 with pendingNotes := adel s1.pendingNotes i }
    | some p =>
      if p.shouldCancel then { s1 with pendingNotes := adel s1.pendingNotes i }
      else
        { s1 with
          log := s1.log ++ [SEv.attack i],
          pendingNotes := adel s1.pendingNotes i,
          activeNotes := aset s1.activeNotes i (getNote i),
          lockTimeouts := aset s1.lockTimeouts i s1.nextTid,
          armed := aset s1.armed s1.nextTid i,
          nextTid := s1.nextTid + 1 }

/-- `stopNote(index, force)`: no-op if locked and not forced; if active,
release the sound, drop the active entry and cancel the auto-lock timeout;
else if pending, mark the pending entry for cancellation; else no-op. -/
def stopNote (s : Config) (i : Nat) (force : Bool) : Config :=
  if ahas s.lockedDrones i && !force then s
  else if ahas s.activeNotes i then
    let s1 := { s with log := s.log ++ [SEv.release i],
                       activeNotes := adel s.activeNotes i }
    match aget s1.lockTimeouts i with
    | some tid => { s1 with lockTimeouts := adel s1.lockTimeouts i,
                            armed := adel s1.armed tid }
    | none => s1
  else
    match aget s.pendingNotes i with
    | some p => { s with pendingNotes := aset s.pendingNotes i { p with shouldCancel := true } }
    | none => s

/-- `lockDrone(index)`: only if active; copy the note into `lockedDrones`
(the active entry is NOT removed) and cancel the auto-lock timeout. -/
def lockDrone (s : Config) (i : Nat) : Config :=
  match aget s.activeNotes i with
  | none => s
  | some n =>
    let s1 := { s with lockedDrones := aset s.lockedDrones i n }
    match aget s1.lockTimeouts i with
    | some tid => { s1 with lockTimeouts := adel s1.lockTimeouts i,
                            armed := adel s1.armed tid }
    | none => s1

/-- `unlockDrone(index)`: only if locked; drop the locked entry, release
the sound and drop the active entry. -/
def unlockDrone (s : Config) (i : Nat) : Config :=
  match aget s.lockedDrones i with
  | none => s
  | some _ =>
    { s with lockedDrones := adel s.lockedDrones i,
             log := s.log ++ [SEv.release i],
             activeNotes := adel s.activeNotes i }

/-- The auto-lock timer `tid` fires (possible only while it is armed,
i.e. scheduled and not cancelled): it runs `lockDrone` on its index.  The
`onAutoLock` callback only updates visuals and is not modelled. -/
def fireTimer (s : Config) (tid : Nat) : Config :=
  match aget s.armed tid with
  | none => s
  | some i => lockDrone { s with armed := adel s.armed tid } i

/-- `stopAllNotes()`: mark-and-clear all pending entries, release and
clear all active notes, release and clear all locked drones, and
`clearTimeout` every id in `lockTimeouts` before clearing the table.
Outstanding continuations are untouched (they will find their pending
entry gone). -/
def stopAllNotes (s : Config) : Config :=
  { s with
    pendingNotes := [],
    log := s.log ++ s.activeNotes.map (fun p => SEv.release p.1)
                 ++ s.lockedDrones.map (fun p => SEv.release p.1),
    activeNotes := [],
    lockedDrones := [],
    lockTimeouts := [],
    armed := s.armed.filter (fun p => !(tidInTable s.lockTimeouts p.1)) }

/-- The events the environment can deliver to the engine in the
single-threaded event-loop model. -/
inductive Ev : Type
  | start (i : Nat)
  | resolve (t : Nat)
  | stop (i : Nat) (force : Bool)
  | lock (i : Nat)
  | unlock (i : Nat)
  | timer (tid : Nat)
  | stopAll
  deriving DecidableEq, Repr

/-- One event-loop turn. -/
def step (s : Config) : Ev → Config
  | Ev.start i => playNote s i
  | Ev.resolve t => resumePlayNote s t
  | Ev.stop i f => stopNote s i f
  | Ev.lock i => lockDrone s i
  | Ev.unlock i => unlockDrone s i
  | Ev.timer tid => fireTimer s tid
  | Ev.stopAll => stopAllNotes s

/-- Run a sequence of event-loop turns. -/
def run (s : Config) (es : List Ev) : Config :=
  es.foldl step s

/-- Index `i` can never again be driven to Active or attacked:
its pending entry, if any, is marked `shouldCancel`, and it is not
active.  This is the state `stopNote` leaves a Pending index in. -/
def cancelInert (s : Config) (i : Nat) : Prop :=
  (∀ p, aget s.pendingNotes i = some p → p.shouldCancel = true) ∧
    aget s.activeNotes i = none

/-- The cross-map well-formedness of every reachable engine state:
a pending index is neither active nor locked; an armed timer is
registered in `lockTimeouts` under its index; a registered timeout
belongs to an active index; a locked index has no registered timeout. -/
def Inv (s : Config) : Prop :=
  (∀ i, aget s.pendingNotes i ≠ none →
      aget s.activeNotes i = none ∧ aget s.lockedDrones i = none) ∧
  (∀ tid i, (tid, i) ∈ s.armed → aget s.lockTimeouts i = some tid) ∧
  (∀ i tid, aget s.lockTimeouts i = some tid → aget s.activeNotes i ≠ none) ∧
  (∀ i, aget s.lockedDrones i ≠ none → aget s.lockTimeouts i = none)

/-- A state with slice 0 in the (reachable shape of the) Locked state:
start, resolve, auto-lock fire. -/
def lockedDemo : Config :=
  run init [Ev.start 0, Ev.resolve 0, Ev.timer 0]

end Exp

/-- JS `Math.round`: round half toward positive infinity,
`Math.round x = Math.floor (x + 0.5)`. -/
def jsRound (q : ℚ) : ℤ :=
  ⌊q + 1 / 2⌋

/-- Truncation toward zero of a rational (the integer part JS `%` uses). -/
def ratTrunc (q : ℚ) : ℤ :=
  if 0 ≤ q then ⌊q⌋ else -⌊-q⌋

/-- The JS remainder operator `%` on rationals: the remainder after
truncated division, taking the sign of the dividend. -/
def jsModQ (a b : ℚ) : ℚ :=
  a - b * (ratTrunc (a / b) : ℚ)

namespace Main

/-- The AudioEngine of part_001 (no pending map).  Its `playNote` only
awaits the cached init; readiness is modelled as immediate, so the whole
method is one step.  `lockTimeouts` and `nextTid` model the auto-lock
`setTimeout` bookkeeping. -/
structure AudioState : Type where
  activeNotes : AMap String
  lockedDrones : AMap String
  lockTimeouts : AMap Nat
  nextTid : Nat
  log : List SEv
  deriving DecidableEq, Repr

/-- The empty part_001 engine. -/
def audioInit : AudioState :=
  { activeNotes := [], lockedDrones := [], lockTimeouts := [],
    nextTid := 0, log := [] }

/-- `isLocked(index)`. -/
def isLocked (a : AudioState) (i : Nat) : Bool :=
  ahas a.lockedDrones i

/-- part_001 `playNote(index)`: skip if locked; if not active, trigger
the attack, record the active note and arm the auto-lock timeout. -/
def playNote (a : AudioState) (i : Nat) : AudioState :=
  if ahas a.lockedDrones i then a
  else if ahas a.activeNotes i then a
  else
    { a with log := a.log ++ [SEv.attack i],
             activeNotes := aset a.activeNotes i (getNote i),
             lockTimeouts := aset a.lockTimeouts i a.nextTid,
             nextTid := a.nextTid + 1 }

/-- part_001 `stopNote(index, force)`. -/
def stopNote (a : AudioState) (i : Nat) (force : Bool) : AudioState :=
  if ahas a.lockedDrones i && !force then a
  else if ahas a.activeNotes i then
    { a with log := a.log ++ [SEv.release i],
             activeNotes := adel a.activeNotes i,
             lockTimeouts := adel a.lockTimeouts i }
  else a

/-- part_001 `unlockDrone(index)`. -/
def unlockDrone (a : AudioState) (i : Nat) : AudioState :=
  match aget a.lockedDrones i with
  | none => a
  | some _ =>
    { a with lockedDrones := adel a.lockedDrones i,
             log := a.log ++ [SEv.release i],
             activeNotes := adel a.activeNotes i }

/-- The `dragState` record of InteractionManager, field for field. -/
structure DragState : Type where
  isDragging : Bool
  isRotating : Bool
  isPinching : Bool
  pressedSlices : List Nat
  lastAngle : ℚ
  lastRotationSlice : Option Nat
  wasInGripperZone : Bool
  startedFromSlice : Bool
  lastTouchedSlice : Option Nat
  lastPinchDistance : ℚ
  deriving DecidableEq, Repr

/-- The initial `dragState`. -/
def dragInit : DragState :=
  { isDragging := false, isRotating := false, isPinching := false,
    pressedSlices := [], lastAngle := 0, lastRotationSlice := none,
    wasInGripperZone := false, startedFromSlice := false,
    lastTouchedSlice := none, lastPinchDistance := 0 }

/-- The InteractionManager state: its `dragState`, the audio engine it
drives, and the two StateManager keys it reads and writes
(`rotation` and `sliceCount`). -/
structure Interaction : Type where
  dragState : DragState
  audio : AudioState
  rotation : ℚ
  sliceCount : ℤ
  deriving DecidableEq, Repr

/-- The application start state (INITIAL_STATE: rotation 58, 32 slices). -/
def interInit : Interaction :=
  { dragState := dragInit, audio := audioInit, rotation := 58, sliceCount := 32 }

/-- Membership in the pressed-slice set. -/
def pmem : List Nat → Nat → Bool
  | [], _ => false
  | j :: t, i => if j = i then true else pmem t i

/-- JS `Set.add` on the pressed-slice set (one DOM element per index). -/
def padd (l : List Nat) (i : Nat) : List Nat :=
  if pmem l i then l else l ++ [i]

/-- JS `Set.delete` on the pressed-slice set. -/
def pdel : List Nat → Nat → List Nat
  | [], _ => []
  | j :: t, i => if j = i then pdel t i else j :: pdel t i

/-- `activateSlice(index)`: skip if locked; press the slice (visual),
add it to `pressedSlices` and call `audio.playNote`. -/
def activateSlice (s : Interaction) (i : Nat) : Interaction :=
  if isLocked s.audio i then s
  else
    { s with dragState := { s.dragState with pressedSlices := padd s.dragState.pressedSlices i },
             audio := playNote s.audio i }

/-- `deactivateSlice(index)`: release the slice (visual), remove it from
`pressedSlices` and call `audio.stopNote`. -/
def deactivateSlice (s : Interaction) (i : Nat) : Interaction :=
  { s with dragState := { s.dragState with pressedSlices := pdel s.dragState.pressedSlices i },
           audio := stopNote s.audio i false }

/-- The readings `handleStart` extracts from a pointer-down event: the
slice index under the event target if it is a slice, whether there are
two touches and both lie in the gripper ring (with their separation),
whether the target is the inner rotation plate inside the draggable
ring, and the polar angle of the point. -/
structure StartEnv : Type where
  targetSlice : Option Nat
  twoTouches : Bool
  bothInGripper : Bool
  pinchDist : ℚ
  isInnerPlate : Bool
  inRing : Bool
  angle : ℚ
  deriving DecidableEq, Repr

/-- `startPinch`: record the baseline separation. -/
def startPinch (s : Interaction) (dist : ℚ) : Interaction :=
  { s with dragState := { s.dragState with isPinching := true, lastPinchDistance := dist } }

/-- `startRotation`: record the baseline angle; gripper visual only. -/
def startRotation (s : Interaction) (angle : ℚ) : Interaction :=
  { s with dragState := { s.dragState with
      isRotating := true, wasInGripperZone := true,
      startedFromSlice := false, lastAngle := angle } }

/-- `startSliceDrag`: mark dragging and activate the slice. -/
def startSliceDrag (s : Interaction) (i : Nat) : Interaction :=
  activateSlice
    { s with dragState := { s.dragState with isDragging := true, startedFromSlice := true } } i

/-- The part of `handleStart` after the locked-slice unlock check. -/
def handleStartRest (s : Interaction) (e : StartEnv) : Interaction :=
  if e.twoTouches && e.bothInGripper then startPinch s e.pinchDist
  else if e.isInnerPlate && e.inRing then startRotation s e.angle
  else
    match e.targetSlice with
    | some i => startSliceDrag s i
    | none => s

/-- `handleStart(e)`: tapping a locked slice unlocks it and consumes the
event; otherwise the pinch / rotation / slice-drag dispatch runs. -/
def handleStart (s : Interaction) (e : StartEnv) : Interaction :=
  match e.targetSlice with
  | some i =>
    if isLocked s.audio i then { s with audio := unlockDrone s.audio i }
    else handleStartRest s e
  | none => handleStartRest s e

/-- The readings `handleMove` extracts from a pointer-move event:
the number of touches (`none` for a mouse event, which has no `touches`
list), the current touch separation, whether the point is inside the
gripper ring, its polar angle, the slice element under the point
(elementFromPoint) and the slice index of the point (getSliceIndexAtPoint). -/
structure MoveEnv : Type where
  touches : Option Nat
  dist : ℚ
  inGripper : Bool
  angle : ℚ
  elementSlice : Option Nat
  sliceAt : Nat
  deriving DecidableEq, Repr

/-- `e.touches && e.touches.length >= 2`. -/
def touchesGE2 (e : MoveEnv) : Bool :=
  match e.touches with
  | some n => decide (2 ≤ n)
  | none => false

/-- `e.touches && e.touches.length < 2`. -/
def touchesLT2 (e : MoveEnv) : Bool :=
  match e.touches with
  | some n => decide (n < 2)
  | none => false

/-- `handlePinch`, extracted as a pure function of the baseline
separation, the current separation and the current slice count; returns
the new slice count and the new baseline.  Sensitivity: ~20px per slice;
pinching in adds slices; the count is clamped to [6, 72]; the baseline
is re-set to the current reading only when the count actually changed. -/
def handlePinch (lastDist currentDist : ℚ) (count : ℤ) : ℤ × ℚ :=
  let distanceDelta := currentDist - lastDist
  let sliceChange := jsRound (distanceDelta / 20)
  if sliceChange ≠ 0 then
    let newSliceCount := max 6 (min 72 (count - sliceChange))
    if newSliceCount ≠ count then (newSliceCount, currentDist)
    else (count, lastDist)
  else (count, lastDist)

/-- The pinch branch of `handleMove`. -/
def handlePinchStep (s : Interaction) (e : MoveEnv) : Interaction :=
  let r := handlePinch s.dragState.lastPinchDistance e.dist s.sliceCount
  { s with sliceCount := r.1,
           dragState := { s.dragState with lastPinchDistance := r.2 } }

/-- The pinch-exit branch of `handleMove`: when a pinch loses a touch,
clear the pinch state and re-enter as rotation or slice drag according to
where the remaining touch is.  The handler then falls through to the
normal move processing. -/
def pinchExit (s : Interaction) (e : MoveEnv) : Interaction :=
  if s.dragState.isPinching && touchesLT2 e then
    let s1 := { s with dragState := { s.dragState with isPinching := false, lastPinchDistance := 0 } }
    if e.inGripper then
      { s1 with dragState := { s1.dragState with
          isRotating := true, wasInGripperZone := true, lastAngle := e.angle } }
    else
      match e.elementSlice with
      | some i =>
        activateSlice
          { s1 with dragState := { s1.dragState with isDragging := true, startedFromSlice := true } } i
      | none => { s1 with dragState := { s1.dragState with isDragging := true } }
  else s

/-- The ring-entry transition of `handleMove`: entering the gripper zone
releases the slice currently touched and converts the session to
rotation. -/
def ringTransition (s : Interaction) (e : MoveEnv) : Interaction :=
  if e.inGripper && !s.dragState.wasInGripperZone then
    let s1 :=
      match s.dragState.lastTouchedSlice with
      | some j =>
        let s2 := deactivateSlice s j
        { s2 with dragState := { s2.dragState with lastTouchedSlice := none } }
      | none => s
    { s1 with dragState := { s1.dragState with
        isRotating := true, wasInGripperZone := true, lastAngle := e.angle } }
  else s

/-- `activateSliceAtPosition`: re-resolve the slice under the finger
during a rotate-sweep; on change release the previous slice and activate
the new one. -/
def activateSliceAtPosition (s : Interaction) (sliceIndex : Nat) : Interaction :=
  let s1 :=
    match s.dragState.lastRotationSlice with
    | some last => if last ≠ sliceIndex then deactivateSlice s last else s
    | none => s
  if s1.dragState.lastRotationSlice ≠ some sliceIndex then
    let s2 := activateSlice s1 sliceIndex
    { s2 with dragState := { s2.dragState with lastRotationSlice := some sliceIndex } }
  else s1

/-- `handleRotation`: wrap the angular delta to [-180, 180], add it to
the rotation modulo 360, re-baseline the angle, and if the rotation
began over a slice re-resolve the slice under the finger. -/
def handleRotation (s : Interaction) (e : MoveEnv) : Interaction :=
  let d0 := e.angle - s.dragState.lastAngle
  let d1 := if d0 > 180 then d0 - 360 else d0
  let d2 := if d1 < -180 then d1 + 360 else d1
  let s1 := { s with rotation := jsModQ (s.rotation + d2 + 360) 360,
                     dragState := { s.dragState with lastAngle := e.angle } }
  if s1.dragState.startedFromSlice then activateSliceAtPosition s1 e.sliceAt else s1

/-- `handleSliceDrag`: crossing to a different element releases the
former slice; a (non-locked) slice under the pointer becomes the touched
slice and is activated. -/
def handleSliceDrag (s : Interaction) (e : MoveEnv) : Interaction :=
  let s1 :=
    match s.dragState.lastTouchedSlice with
    | some j =>
      if s.dragState.lastTouchedSlice ≠ e.elementSlice then
        let s2 := deactivateSlice s j
        { s2 with dragState := { s2.dragState with lastTouchedSlice := none } }
      else s
    | none => s
  match e.elementSlice with
  | some i =>
    if isLocked s1.audio i then s1
    else if s1.dragState.lastTouchedSlice ≠ some i then
      let s2 := activateSlice s1 i
      { s2 with dragState := { s2.dragState with lastTouchedSlice := some i } }
    else s1
  | none => s1

/-- `handleMove(e)`: pinch processing, pinch-exit transition, the
early-out when neither dragging nor rotating, the ring-entry transition,
then rotation else slice-drag processing. -/
def handleMove (s : Interaction) (e : MoveEnv) : Interaction :=
  if s.dragState.isPinching && touchesGE2 e then handlePinchStep s e
  else
    let s1 := pinchExit s e
    if !s1.dragState.isDragging && !s1.dragState.isRotating then s1
    else
      let s2 := ringTransition s1 e
      if s2.dragState.isRotating then handleRotation s2 e
      else if s2.dragState.isDragging then handleSliceDrag s2 e
      else s2

/-- `handleEnd()`: if any gesture is in progress, stop every pressed
slice that is not locked, stop the last rotation slice if not locked,
and reset the whole drag state (note: `lastAngle` is not reset by the
code; it is re-baselined whenever a rotation starts). -/
def handleEnd (s : Interaction) : Interaction :=
  if s.dragState.isDragging || s.dragState.isRotating || s.dragState.isPinching then
    let a1 := s.dragState.pressedSlices.foldl
      (fun a i => if isLocked a i then a else stopNote a i false) s.audio
    let a2 :=
      match s.dragState.lastRotationSlice with
      | some j => if isLocked a1 j then a1 else stopNote a1 j false
      | none => a1
    { s with audio := a2,
             dragState := { s.dragState with
               isDragging := false, isRotating := false, isPinching := false,
               wasInGripperZone := false, startedFromSlice := false,
               lastRotationSlice := none, lastTouchedSlice := none,
               lastPinchDistance := 0, pressedSlices := [] } }
  else s

/-- Overwrite only the `isDragging` flag. -/
def withDragging (s : Interaction) (b : Bool) : Interaction :=
  { s with dragState := { s.dragState with isDragging := b } }

/-- A pointer-down on (non-locked) slice 0, outside the gripper ring. -/
def demoStartEnv : StartEnv :=
  { targetSlice := some 0, twoTouches := false, bothInGripper := false,
    pinchDist := 0, isInnerPlate := false, inRing := false, angle := 0 }

/-- A subsequent mouse move into the gripper ring (angle reading 5,
slice 2 under the finger, no slice element under the point). -/
def demoMoveEnv : MoveEnv :=
  { touches := none, dist := 0, inGripper := true, angle := 5,
    elementSlice := none, sliceAt := 2 }

/-- The session state after pressing slice 0: a slice drag in progress. -/
def demoDrag : Interaction :=
  handleStart interInit demoStartEnv

/-- The session state after that drag moves into the gripper ring. -/
def demoDragRot : Interaction :=
  handleMove demoDrag demoMoveEnv

end Main

/-- The JS remainder operator `%` on real operands (`Math.atan2` results
are real): remainder after truncated division, sign of the dividend. -/
noncomputable def jsModR (a b : ℝ) : ℝ :=
  a - b * ((if 0 ≤ a / b then ⌊a / b⌋ else -⌊-(a / b)⌋ : ℤ) : ℝ)

/-- `getAngleFromPoint(x, y, center)`: `Math.atan2(dy, dx)` in degrees,
range (-180, 180].  `Math.atan2 dy dx` is the argument of the complex
number `dx + dy·i` (also at the origin, where both are 0). -/
noncomputable def getAngleFromPoint (x y cx cy : ℝ) : ℝ :=
  Complex.arg (((x - cx : ℝ) : ℂ) + ((y - cy : ℝ) : ℂ) * Complex.I) * 180 / Real.pi

/-- `getSliceIndexAtPoint(x, y, center, sliceCount)` with the `rotation`
read from the StateManager passed explicitly: normalize the angle to
[0, 360), subtract the rotation modulo 360, divide by the per-slice
angle and floor. -/
noncomputable def getSliceIndexAtPoint (x y cx cy : ℝ) (sliceCount : ℕ) (rotation : ℝ) : ℤ :=
  let angle0 := getAngleFromPoint x y cx cy
  let angle1 := jsModR (angle0 + 360) 360
  let angle2 := jsModR (angle1 - rotation + 360) 360
  let anglePerSlice := 360 / (sliceCount : ℝ)
  ⌊angle2 / anglePerSlice⌋


/-! Association-map lemmas. -/

theorem aget_aset_self {α : Type} (m : AMap α) (i : Nat) (v : α) :
    aget (aset m i v) i = some v := by
  induction m with
  | nil => simp [aset, aget]
  | cons h t ih =>
    obtain ⟨k, w⟩ := h
    by_cases hk : k = i
    · subst hk; simp [aset, aget]
    · simp [aset, aget, hk, ih]

theorem aget_aset_ne {α : Type} (m : AMap α) (i j : Nat) (v : α) (h : j ≠ i) :
    aget (aset m i v) j = aget m j := by
  have hij : i ≠ j := Ne.symm h
  induction m with
  | nil => simp [aset, aget, hij]
  | cons hd t ih =>
    obtain ⟨k, w⟩ := hd
    by_cases hk : k = i
    · subst hk
      simp [aset, aget, hij]
    · simp [aset, aget, hk, ih]

theorem aget_adel_self {α : Type} (m : AMap α) (i : Nat) :
    aget (adel m i) i = none := by
  induction m with
  | nil => simp [adel, aget]
  | cons hd t ih =>
    obtain ⟨k, w⟩ := hd
    by_cases hk : k = i
    · simp [adel, hk, ih]
    · simp [adel, aget, hk, ih]

theorem aget_adel_ne {α : Type} (m : AMap α) (i j : Nat) (h : j ≠ i) :
    aget (adel m i) j = aget m j := by
  have hij : i ≠ j := Ne.symm h
  induction m with
  | nil => simp [adel]
  | cons hd t ih =>
    obtain ⟨k, w⟩ := hd
    by_cases hk : k = i
    · subst hk
      simp [adel, aget, hij, ih]
    · simp [adel, aget, hk, ih]

theorem aset_eq_of_aget {α : Type} (m : AMap α) (i : Nat) (v : α)
    (h : aget m i = some v) : aset m i v = m := by
  induction m with
  | nil => simp [aget] at h
  | cons hd t ih =>
    obtain ⟨k, w⟩ := hd
    by_cases hk : k = i
    · subst hk
      simp [aget] at h
      simp [aset, h]
    · simp [aget, hk] at h
      simp [aset, hk, ih h]

/-- C2: for every slice index starting from Idle, two consecutive start
calls issued before the readiness wait resolves produce exactly one sound
attack (the event log is the single attack of that index) and exactly one
transition to Active (the transition and the attack happen in the same
continuation branch, and the index ends Active with its note), even
though both continuations eventually resume, in either resumption
order. -/
theorem spec_C2 (i : Nat) :
    ((Exp.run Exp.init [Exp.Ev.start i, Exp.Ev.start i, Exp.Ev.resolve 0, Exp.Ev.resolve 1]).log
        = [SEv.attack i] ∧
      aget (Exp.run Exp.init [Exp.Ev.start i, Exp.Ev.start i, Exp.Ev.resolve 0, Exp.Ev.resolve 1]).activeNotes i
        = some (getNote i)) ∧
    ((Exp.run Exp.init [Exp.Ev.start i, Exp.Ev.start i, Exp.Ev.resolve 1, Exp.Ev.resolve 0]).log
        = [SEv.attack i] ∧
      aget (Exp.run Exp.init [Exp.Ev.start i, Exp.Ev.start i, Exp.Ev.resolve 1, Exp.Ev.resolve 0]).activeNotes i
        = some (getNote i)) := by
  refine ⟨⟨?_, ?_⟩, ⟨?_, ?_⟩⟩ <;>
    simp [Exp.run, Exp.step, Exp.playNote, Exp.resumePlayNote, Exp.init,
          aget, aset, adel, ahas]

/-- C1 counterexample: start slice 0, stop it while Pending (the pending
entry is indeed marked cancelled), then start it again before the wait
resolves; when the continuation of the FIRST start (token 0, the one that
was in flight when stop was called) resumes, it finds the overwritten
uncancelled entry, triggers the attack and transitions the index to
Active — the claim's "that in-flight start never transitions the index to
Active and never triggers a sound attack" is false. -/
theorem spec_C1_counterexample :
    aget (Exp.run Exp.init [Exp.Ev.start 0]).pendingNotes 0
        = some ⟨false, getNote 0⟩ ∧
    aget (Exp.run Exp.init [Exp.Ev.start 0, Exp.Ev.stop 0 false]).pendingNotes 0
        = some ⟨true, getNote 0⟩ ∧
    (Exp.run Exp.init
        [Exp.Ev.start 0, Exp.Ev.stop 0 false, Exp.Ev.start 0, Exp.Ev.resolve 0]).log
        = [SEv.attack 0] ∧
    aget (Exp.run Exp.init
        [Exp.Ev.start 0, Exp.Ev.stop 0 false, Exp.Ev.start 0, Exp.Ev.resolve 0]).activeNotes 0
        = some (getNote 0) := by
  decide

/-- C3 counterexample: after start 0, resolve, and the auto-lock timer
firing, slice 0 is in `activeNotes` AND in `lockedDrones` simultaneously:
`lockDrone` copies the note into `lockedDrones` without removing it from
`activeNotes`, so the three maps are not pairwise disjoint after a
completed lock operation. -/
theorem spec_C3_counterexample :
    aget Exp.lockedDemo.activeNotes 0 = some (getNote 0) ∧
    aget Exp.lockedDemo.lockedDrones 0 = some (getNote 0) := by
  decide

/-- C5 counterexample: start slice 0, call stopAllNotes while its
continuation is still outstanding (third conjunct), then start the slice
again; the outstanding continuation of the FIRST start (token 0) resumes,
finds the fresh pending entry and triggers the attack — so a start
continuation outstanding at the time of the stopAllNotes call does not
always resolve as a no-op. -/
theorem spec_C5_counterexample :
    aget (Exp.run Exp.init [Exp.Ev.start 0, Exp.Ev.stopAll]).outstanding 0 = some 0 ∧
    (Exp.run Exp.init
        [Exp.Ev.start 0, Exp.Ev.stopAll, Exp.Ev.start 0, Exp.Ev.resolve 0]).log
        = [SEv.attack 0] ∧
    aget (Exp.run Exp.init
        [Exp.Ev.start 0, Exp.Ev.stopAll, Exp.Ev.start 0, Exp.Ev.resolve 0]).activeNotes 0
        = some (getNote 0) := by
  decide

/-- C4 counterexample: from the initial state, a pointer-down on slice 0
followed by a move into the gripper ring yields a reachable state whose
gesture session has `isDragging` and `isRotating` both set: the gesture
kinds are stored as independent booleans and SliceDragging and Rotating
are simultaneously active. -/
theorem spec_C4_counterexample :
    Main.demoDragRot.dragState.isDragging = true ∧
    Main.demoDragRot.dragState.isRotating = true := by
  decide

/-- C7: during a pinch move with baseline `b`, current separation `d` and
current count `c`: the count change is `jsRound ((d - b) / 20)` and the
new count is its clamp into [6, 72] exactly when that change is nonzero;
the baseline is re-set to `d` exactly when the resulting count differs
from `c`; in the 200px → 160px scenario the change is −2 and the new
count is `clamp (c + 2) 6 72`; and a count within [6, 72] stays within
[6, 72]. -/
theorem handlePinch_fst (b d : ℚ) (c : ℤ) :
    (Main.handlePinch b d c).1
        = if jsRound ((d - b) / 20) = 0 then c
          else max 6 (min 72 (c - jsRound ((d - b) / 20))) := by
  by_cases h0 : jsRound ((d - b) / 20) = 0
  · simp [Main.handlePinch, h0]
  · by_cases hne : max 6 (min 72 (c - jsRound ((d - b) / 20))) = c <;>
      simp [Main.handlePinch, h0, hne]

theorem spec_C7 (b d : ℚ) (c : ℤ) :
    (Main.handlePinch b d c).1
        = (if jsRound ((d - b) / 20) = 0 then c
           else max 6 (min 72 (c - jsRound ((d - b) / 20)))) ∧
    (Main.handlePinch b d c).2 = (if (Main.handlePinch b d c).1 ≠ c then d else b) ∧
    (jsRound (((160 : ℚ) - 200) / 20) = -2 ∧
      (Main.handlePinch 200 160 c).1 = max 6 (min 72 (c + 2))) ∧
    (6 ≤ c → c ≤ 72 →
      6 ≤ (Main.handlePinch b d c).1 ∧ (Main.handlePinch b d c).1 ≤ 72) := by
  have hs : jsRound (((160 : ℚ) - 200) / 20) = -2 := by norm_num [jsRound]
  refine ⟨handlePinch_fst b d c, ?_, ⟨hs, ?_⟩, ?_⟩
  · by_cases h0 : jsRound ((d - b) / 20) = 0
    · simp [Main.handlePinch, h0]
    · by_cases hne : max 6 (min 72 (c - jsRound ((d - b) / 20))) = c <;>
        simp [Main.handlePinch, h0, hne]
  · rw [handlePinch_fst 200 160 c, hs]
    norm_num [sub_neg_eq_add]
  · intro h6 h72
    rw [handlePinch_fst b d c]
    by_cases h0 : jsRound ((d - b) / 20) = 0
    · rw [if_pos h0]; exact ⟨h6, h72⟩
    · rw [if_neg h0]
      exact ⟨le_max_left _ _,
        max_le (by norm_num) (le_trans (min_le_left _ _) le_rfl)⟩

/-- C7 witness: the theorem applied at baseline 200, separation 160,
count 32. -/
theorem spec_C7_witness :
    (6 : ℤ) ≤ 32 ∧ (32 : ℤ) ≤ 72 ∧
    (6 ≤ (Main.handlePinch 200 160 32).1 ∧ (Main.handlePinch 200 160 32).1 ≤ 72) :=
  ⟨by decide, by decide, (spec_C7 200 160 32).2.2.2 (by decide) (by decide)⟩

/-- C6: for a slice index in the Locked state — which in every reachable
state means a `lockedDrones` entry whose note also sits in `activeNotes`
(see the C3 analysis) and no registered auto-lock timeout — `playNote`,
`stopNote` without force and `lockDrone` leave the entire engine state
unchanged: no collection changes for any index, no new continuation, no
attack and no release, and the index remains Locked. -/
theorem spec_C6 (s : Exp.Config) (i : Nat) (n : String)
    (hL : aget s.lockedDrones i = some n)
    (hA : aget s.activeNotes i = some n)
    (hT : aget s.lockTimeouts i = none) :
    Exp.step s (Exp.Ev.start i) = s ∧
    Exp.step s (Exp.Ev.stop i false) = s ∧
    Exp.step s (Exp.Ev.lock i) = s := by
  refine ⟨?_, ?_, ?_⟩
  · simp [Exp.step, Exp.playNote, ahas, hL]
  · simp [Exp.step, Exp.stopNote, ahas, hL]
  · simp [Exp.step, Exp.lockDrone, hA, hT, aset_eq_of_aget _ _ _ hL]

/-- C6 witness: the theorem applied at the concrete Locked state of
slice 0 (reached by start, resolve, auto-lock fire). -/
theorem spec_C6_witness :
    aget Exp.lockedDemo.lockedDrones 0 = some (getNote 0) ∧
    aget Exp.lockedDemo.activeNotes 0 = some (getNote 0) ∧
    aget Exp.lockedDemo.lockTimeouts 0 = none ∧
    Exp.step Exp.lockedDemo (Exp.Ev.start 0) = Exp.lockedDemo ∧
    Exp.step Exp.lockedDemo (Exp.Ev.stop 0 false) = Exp.lockedDemo ∧
    Exp.step Exp.lockedDemo (Exp.Ev.lock 0) = Exp.lockedDemo := by
  have h1 : aget Exp.lockedDemo.lockedDrones 0 = some (getNote 0) := by decide
  have h2 : aget Exp.lockedDemo.activeNotes 0 = some (getNote 0) := by decide
  have h3 : aget Exp.lockedDemo.lockTimeouts 0 = none := by decide
  obtain ⟨w1, w2, w3⟩ := spec_C6 Exp.lockedDemo 0 (getNote 0) h1 h2 h3
  exact ⟨h1, h2, h3, w1, w2, w3⟩

theorem handleEnd_idle (s : Main.Interaction)
    (h1 : s.dragState.isDragging = false) (h2 : s.dragState.isRotating = false)
    (h3 : s.dragState.isPinching = false) : Main.handleEnd s = s := by
  simp [Main.handleEnd, h1, h2, h3]

theorem handleEnd_resets (s : Main.Interaction) :
    (Main.handleEnd s).dragState.isDragging = false ∧
    (Main.handleEnd s).dragState.isRotating = false ∧
    (Main.handleEnd s).dragState.isPinching = false := by
  by_cases hg : (s.dragState.isDragging || s.dragState.isRotating || s.dragState.isPinching) = true
  · simp [Main.handleEnd, hg]
  · simp only [Bool.or_eq_true, not_or, Bool.not_eq_true] at hg
    rw [handleEnd_idle s hg.1.1 hg.1.2 hg.2]
    exact ⟨hg.1.1, hg.1.2, hg.2⟩

/-- C9: the global release handler `handleEnd` is safe in any state:
(1) invoked with no gesture session in progress it leaves the whole
state unchanged (gesture session, note states and pressed-slice set);
(2) invoking it twice has exactly the effect of invoking it once; and
(3) whenever a gesture session was in progress, one invocation leaves
the session Idle: all three gesture flags cleared, the pressed set
empty, and the rotation/pinch bookkeeping (last rotation slice, last
touched slice, pinch baseline, gripper-zone and from-slice marks)
cleared. -/
theorem spec_C9 (s : Main.Interaction) :
    (s.dragState.isDragging = false → s.dragState.isRotating = false →
      s.dragState.isPinching = false → Main.handleEnd s = s) ∧
    Main.handleEnd (Main.handleEnd s) = Main.handleEnd s ∧
    ((s.dragState.isDragging || s.dragState.isRotating || s.dragState.isPinching) = true →
      (Main.handleEnd s).dragState.isDragging = false ∧
      (Main.handleEnd s).dragState.isRotating = false ∧
      (Main.handleEnd s).dragState.isPinching = false ∧
      (Main.handleEnd s).dragState.pressedSlices = [] ∧
      (Main.handleEnd s).dragState.lastPinchDistance = 0 ∧
      (Main.handleEnd s).dragState.lastRotationSlice = none ∧
      (Main.handleEnd s).dragState.lastTouchedSlice = none ∧
      (Main.handleEnd s).dragState.wasInGripperZone = false ∧
      (Main.handleEnd s).dragState.startedFromSlice = false) := by
  obtain ⟨hr1, hr2, hr3⟩ := handleEnd_resets s
  refine ⟨handleEnd_idle s, handleEnd_idle _ hr1 hr2 hr3, ?_⟩
  intro hg
  simp [Main.handleEnd, hg]

/-- C9 witness: the theorem applied at the concrete idle start state and
at the concrete slice-drag state of slice 0. -/
theorem spec_C9_witness :
    Main.handleEnd Main.interInit = Main.interInit ∧
    Main.handleEnd (Main.handleEnd Main.demoDrag) = Main.handleEnd Main.demoDrag ∧
    (Main.demoDrag.dragState.isDragging || Main.demoDrag.dragState.isRotating ||
        Main.demoDrag.dragState.isPinching) = true ∧
    (Main.handleEnd Main.demoDrag).dragState.isDragging = false ∧
    (Main.handleEnd Main.demoDrag).dragState.pressedSlices = [] := by
  have hg : (Main.demoDrag.dragState.isDragging || Main.demoDrag.dragState.isRotating ||
      Main.demoDrag.dragState.isPinching) = true := by decide
  refine ⟨(spec_C9 Main.interInit).1 rfl rfl rfl, (spec_C9 Main.demoDrag).2.1, hg, ?_, ?_⟩
  · exact ((spec_C9 Main.demoDrag).2.2 hg).1
  · exact ((spec_C9 Main.demoDrag).2.2 hg).2.2.2.1

theorem withDragging_fields (s : Main.Interaction) (b : Bool) :
    (Main.withDragging s b).dragState.isPinching = s.dragState.isPinching ∧
    (Main.withDragging s b).dragState.isRotating = s.dragState.isRotating ∧
    (Main.withDragging s b).dragState.isDragging = b := by
  simp [Main.withDragging]

theorem pinchExit_not_pinching (s : Main.Interaction) (e : Main.MoveEnv)
    (hp : s.dragState.isPinching = false) : Main.pinchExit s e = s := by
  simp [Main.pinchExit, hp]

theorem ringTransition_withDragging (s : Main.Interaction) (e : Main.MoveEnv) (b : Bool) :
    Main.ringTransition (Main.withDragging s b) e
      = Main.withDragging (Main.ringTransition s e) b := by
  obtain ⟨⟨a1, a2, a3, a4, a5, a6, a7, a8, a9, a10⟩, au, rot, sc⟩ := s
  cases a9 <;> cases a7 <;>
    simp [Main.ringTransition, Main.withDragging, Main.deactivateSlice] <;>
    split_ifs <;> rfl

theorem ringTransition_isRotating (s : Main.Interaction) (e : Main.MoveEnv)
    (hr : s.dragState.isRotating = true) :
    (Main.ringTransition s e).dragState.isRotating = true := by
  obtain ⟨⟨a1, a2, a3, a4, a5, a6, a7, a8, a9, a10⟩, au, rot, sc⟩ := s
  simp only at hr
  subst hr
  cases a9 <;> simp [Main.ringTransition, Main.deactivateSlice] <;> split_ifs <;> rfl

theorem ringTransition_isDragging (s : Main.Interaction) (e : Main.MoveEnv) :
    (Main.ringTransition s e).dragState.isDragging = s.dragState.isDragging := by
  obtain ⟨⟨a1, a2, a3, a4, a5, a6, a7, a8, a9, a10⟩, au, rot, sc⟩ := s
  cases a9 <;> simp [Main.ringTransition, Main.deactivateSlice] <;> split_ifs <;> rfl

theorem handleRotation_withDragging (s : Main.Interaction) (e : Main.MoveEnv) (b : Bool) :
    Main.handleRotation (Main.withDragging s b) e
      = Main.withDragging (Main.handleRotation s e) b := by
  obtain ⟨⟨a1, a2, a3, a4, a5, a6, a7, a8, a9, a10⟩, au, rot, sc⟩ := s
  cases a8 <;> cases a6 <;>
    simp [Main.handleRotation, Main.withDragging, Main.activateSliceAtPosition,
          Main.activateSlice, Main.deactivateSlice] <;>
    split_ifs <;> simp

theorem handleRotation_isDragging (s : Main.Interaction) (e : Main.MoveEnv) :
    (Main.handleRotation s e).dragState.isDragging = s.dragState.isDragging := by
  obtain ⟨⟨a1, a2, a3, a4, a5, a6, a7, a8, a9, a10⟩, au, rot, sc⟩ := s
  cases a8 <;> cases a6 <;>
    simp [Main.handleRotation, Main.activateSliceAtPosition,
          Main.activateSlice, Main.deactivateSlice] <;>
    split_ifs <;> simp

theorem withDragging_withDragging (s : Main.Interaction) (b c : Bool) :
    Main.withDragging (Main.withDragging s b) c = Main.withDragging s c := rfl

theorem withDragging_self (s : Main.Interaction) :
    Main.withDragging s s.dragState.isDragging = s := rfl

/-- C4 amended: the gesture kinds are stored as independent booleans and
states with several flags set are reachable (see the counterexample);
however `handleMove` prioritizes Rotating over SliceDragging, so in any
non-pinching rotating state the `isDragging` flag is inert: the move
behaves exactly as it would with the flag cleared, with the flag's value
merely carried through. -/
theorem spec_C4_amended (s : Main.Interaction) (e : Main.MoveEnv)
    (hp : s.dragState.isPinching = false) (hr : s.dragState.isRotating = true) :
    Main.handleMove s e
      = Main.withDragging (Main.handleMove (Main.withDragging s false) e)
          s.dragState.isDragging := by
  have hpw : (Main.withDragging s false).dragState.isPinching = false := by
    simpa [Main.withDragging] using hp
  have hrw : (Main.withDragging s false).dragState.isRotating = true := by
    simpa [Main.withDragging] using hr
  have h1 : Main.handleMove s e = Main.handleRotation (Main.ringTransition s e) e := by
    simp only [Main.handleMove, hp, hr, Bool.false_and, Bool.not_true, Bool.and_false,
               pinchExit_not_pinching s e hp, ringTransition_isRotating s e hr,
               if_true, Bool.false_eq_true, if_false]
  have h2 : Main.handleMove (Main.withDragging s false) e
      = Main.withDragging (Main.handleRotation (Main.ringTransition s e) e) false := by
    simp only [Main.handleMove, hpw, hrw, Bool.false_and, Bool.not_true, Bool.and_false,
               pinchExit_not_pinching _ e hpw, Bool.false_eq_true, if_false]
    rw [ringTransition_withDragging s e false]
    have hrot : (Main.withDragging (Main.ringTransition s e) false).dragState.isRotating = true := by
      simpa [Main.withDragging] using ringTransition_isRotating s e hr
    simp only [hrot, if_true]
    rw [handleRotation_withDragging]
  rw [h1, h2, withDragging_withDragging]
  conv_lhs => rw [← withDragging_self (Main.handleRotation (Main.ringTransition s e) e)]
  rw [handleRotation_isDragging, ringTransition_isDragging]

/-- C4 amended witness: the theorem applied at the concrete reachable
state with both `isDragging` and `isRotating` set. -/
theorem spec_C4_amended_witness :
    Main.demoDragRot.dragState.isPinching = false ∧
    Main.demoDragRot.dragState.isRotating = true ∧
    Main.handleMove Main.demoDragRot Main.demoMoveEnv
      = Main.withDragging
          (Main.handleMove (Main.withDragging Main.demoDragRot false) Main.demoMoveEnv)
          Main.demoDragRot.dragState.isDragging := by
  have h1 : Main.demoDragRot.dragState.isPinching = false := by decide
  have h2 : Main.demoDragRot.dragState.isRotating = true := by decide
  exact ⟨h1, h2, spec_C4_amended Main.demoDragRot Main.demoMoveEnv h1 h2⟩

theorem aget_adel_of_none {α : Type} (m : AMap α) (i j : Nat) (h : aget m i = none) :
    aget (adel m j) i = none := by
  by_cases hij : i = j
  · subst hij; exact aget_adel_self m i
  · rw [aget_adel_ne m j i hij]; exact h

theorem aget_eq_none_of_not_ahas {α : Type} (m : AMap α) (i : Nat)
    (h : ¬ ahas m i = true) : aget m i = none := by
  rw [ahas, Option.isSome_iff_exists] at h
  push_neg at h
  cases hg : aget m i with
  | none => rfl
  | some v => exact absurd hg (h v)

theorem mem_aset {α : Type} (m : AMap α) (k : Nat) (v : α) (x : Nat × α)
    (h : x ∈ aset m k v) : x = (k, v) ∨ x ∈ m := by
  induction m with
  | nil => simpa [aset] using h
  | cons hd t ih =>
    obtain ⟨k2, w⟩ := hd
    by_cases hk : k2 = k
    · subst hk
      simp [aset] at h
      rcases h with h | h
      · exact Or.inl (by simp [h])
      · exact Or.inr (by simp [h])
    · simp [aset, hk] at h
      rcases h with h | h
      · exact Or.inr (by simp [h])
      · rcases ih h with h2 | h2
        · exact Or.inl h2
        · exact Or.inr (by simp [h2])

theorem mem_adel {α : Type} (m : AMap α) (k : Nat) (x : Nat × α)
    (h : x ∈ adel m k) : x ∈ m := by
  induction m with
  | nil => simpa [adel] using h
  | cons hd t ih =>
    obtain ⟨k2, w⟩ := hd
    by_cases hk : k2 = k
    · simp [adel, hk] at h
      exact List.mem_cons_of_mem _ (ih h)
    · simp [adel, hk] at h
      rcases h with h | h
      · exact by simp [h]
      · exact List.mem_cons_of_mem _ (ih h)

theorem not_mem_adel_key {α : Type} (m : AMap α) (k : Nat) (v : α) :
    (k, v) ∉ adel m k := by
  induction m with
  | nil => simp [adel]
  | cons hd t ih =>
    obtain ⟨k2, w⟩ := hd
    by_cases hk : k2 = k
    · simpa [adel, hk] using ih
    · simp [adel, hk, ih, hk]
      intro hkk
      exact absurd hkk.symm hk

theorem aget_mem {α : Type} (m : AMap α) (k : Nat) (v : α)
    (h : aget m k = some v) : (k, v) ∈ m := by
  induction m with
  | nil => simp [aget] at h
  | cons hd t ih =>
    obtain ⟨k2, w⟩ := hd
    by_cases hk : k2 = k
    · subst hk
      simp [aget] at h
      simp [h]
    · simp [aget, hk] at h
      exact List.mem_cons_of_mem _ (ih h)

theorem tidInTable_of_aget (m : AMap Nat) (i tid : Nat)
    (h : aget m i = some tid) : tidInTable m tid = true := by
  induction m with
  | nil => simp [aget] at h
  | cons hd t ih =>
    obtain ⟨k2, w⟩ := hd
    by_cases hk : k2 = i
    · subst hk
      simp [aget] at h
      simp [tidInTable, h]
    · simp [aget, hk] at h
      simp [tidInTable, ih h]

theorem inv_playNote (s : Exp.Config) (j : Nat) (h : Exp.Inv s) :
    Exp.Inv (Exp.playNote s j) := by
  obtain ⟨I1, I2, I3, I4⟩ := h
  unfold Exp.playNote
  by_cases hL : ahas s.lockedDrones j = true
  · simp [hL]; exact ⟨I1, I2, I3, I4⟩
  · by_cases hA : ahas s.activeNotes j = true
    · simp [hL, hA]; exact ⟨I1, I2, I3, I4⟩
    · simp only [hL, hA, if_false, Bool.false_eq_true]
      refine ⟨?_, I2, I3, I4⟩
      intro i hp
      by_cases hij : i = j
      · subst hij
        exact ⟨aget_eq_none_of_not_ahas _ _ hA, aget_eq_none_of_not_ahas _ _ hL⟩
      · rw [aget_aset_ne _ _ _ _ hij] at hp
        exact I1 i hp

theorem inv_stopAllNotes (s : Exp.Config) (h : Exp.Inv s) :
    Exp.Inv (Exp.stopAllNotes s) := by
  obtain ⟨I1, I2, I3, I4⟩ := h
  unfold Exp.stopAllNotes
  refine ⟨?_, ?_, ?_, ?_⟩
  · intro i hp
    simp [aget] at hp
  · intro tid i hm
    simp only [List.mem_filter] at hm
    have := I2 tid i hm.1
    have ht := tidInTable_of_aget _ _ _ this
    rw [ht] at hm
    simp at hm
  · intro i tid ht
    simp [aget] at ht
  · intro i hl
    simp [aget] at hl

theorem armed_stopAllNotes (s : Exp.Config) (h : Exp.Inv s) :
    (Exp.stopAllNotes s).armed = [] := by
  obtain ⟨I1, I2, I3, I4⟩ := h
  unfold Exp.stopAllNotes
  simp only
  rw [List.filter_eq_nil]
  intro x hx
  have := I2 x.1 x.2 (by simpa using hx)
  simp [tidInTable_of_aget _ _ _ this]

theorem inv_unlockDrone (s : Exp.Config) (j : Nat) (h : Exp.Inv s) :
    Exp.Inv (Exp.unlockDrone s j) := by
  obtain ⟨I1, I2, I3, I4⟩ := h
  unfold Exp.unlockDrone
  cases hLj : aget s.lockedDrones j with
  | none => exact ⟨I1, I2, I3, I4⟩
  | some n =>
    refine ⟨?_, I2, ?_, ?_⟩
    · intro i hp
      obtain ⟨h1, h2⟩ := I1 i hp
      exact ⟨aget_adel_of_none _ _ _ h1, aget_adel_of_none _ _ _ h2⟩
    · intro i tid ht
      by_cases hij : i = j
      · subst hij
        have h4 := I4 i (by rw [hLj]; simp)
        rw [h4] at ht
        cases ht
      · rw [aget_adel_ne _ _ _ hij]
        exact I3 i tid ht
    · intro i hl
      by_cases hij : i = j
      · subst hij
        rw [aget_adel_self] at hl
        exact absurd rfl hl
      · rw [aget_adel_ne _ _ _ hij] at hl
        exact I4 i hl

theorem inv_lockDrone (s : Exp.Config) (j : Nat) (h : Exp.Inv s) :
    Exp.Inv (Exp.lockDrone s j) := by
  obtain ⟨I1, I2, I3, I4⟩ := h
  unfold Exp.lockDrone
  cases hAj : aget s.activeNotes j with
  | none => exact ⟨I1, I2, I3, I4⟩
  | some n =>
    dsimp only
    cases hT : aget s.lockTimeouts j with
    | none =>
      refine ⟨?_, I2, I3, ?_⟩
      · intro i hp
        obtain ⟨h1, h2⟩ := I1 i hp
        refine ⟨h1, ?_⟩
        by_cases hij : i = j
        · subst hij; rw [h1] at hAj; cases hAj
        · rw [aget_aset_ne _ _ _ _ hij]; exact h2
      · intro i hl
        by_cases hij : i = j
        · subst hij; exact hT
        · rw [aget_aset_ne _ _ _ _ hij] at hl
          exact I4 i hl
    | some tid =>
      refine ⟨?_, ?_, ?_, ?_⟩
      · intro i hp
        obtain ⟨h1, h2⟩ := I1 i hp
        refine ⟨h1, ?_⟩
        by_cases hij : i = j
        · subst hij; rw [h1] at hAj; cases hAj
        · rw [aget_aset_ne _ _ _ _ hij]; exact h2
      · intro tid2 i2 hm
        have hm2 := mem_adel _ _ _ hm
        have ht2 := I2 tid2 i2 hm2
        by_cases hij : i2 = j
        · subst hij
          rw [hT] at ht2
          injection ht2 with he
          rw [← he] at hm
          exact absurd hm (not_mem_adel_key _ _ _)
        · rw [aget_adel_ne _ _ _ hij]
          exact ht2
      · intro i tid2 ht2
        by_cases hij : i = j
        · subst hij; rw [aget_adel_self] at ht2; cases ht2
        · rw [aget_adel_ne _ _ _ hij] at ht2
          exact I3 i tid2 ht2
      · intro i hl
        by_cases hij : i = j
        · subst hij; exact aget_adel_self _ _
        · rw [aget_aset_ne _ _ _ _ hij] at hl
          exact aget_adel_of_none _ _ _ (I4 i hl)

theorem inv_stopNote (s : Exp.Config) (j : Nat) (f : Bool) (h : Exp.Inv s) :
    Exp.Inv (Exp.stopNote s j f) := by
  obtain ⟨I1, I2, I3, I4⟩ := h
  unfold Exp.stopNote
  by_cases hLF : (ahas s.lockedDrones j && !f) = true
  · simp only [hLF, if_true]; exact ⟨I1, I2, I3, I4⟩
  · by_cases hA : ahas s.activeNotes j = true
    · simp only [hLF, hA, if_true, if_false, Bool.false_eq_true]
      cases hT : aget s.lockTimeouts j with
      | some tid =>
        refine ⟨?_, ?_, ?_, ?_⟩
        · intro i hp
          obtain ⟨h1, h2⟩ := I1 i hp
          exact ⟨aget_adel_of_none _ _ _ h1, h2⟩
        · intro tid2 i2 hm
          have hm2 := mem_adel _ _ _ hm
          have ht2 := I2 tid2 i2 hm2
          by_cases hij : i2 = j
          · subst hij
            rw [hT] at ht2
            injection ht2 with he
            rw [← he] at hm
            exact absurd hm (not_mem_adel_key _ _ _)
          · rw [aget_adel_ne _ _ _ hij]
            exact ht2
        · intro i tid2 ht2
          by_cases hij : i = j
          · subst hij; rw [aget_adel_self] at ht2; cases ht2
          · rw [aget_adel_ne _ _ _ hij] at ht2
            have h3 := I3 i tid2 ht2
            intro hc
            rw [aget_adel_ne _ _ _ hij] at hc
            exact h3 hc
        · intro i hl
          exact aget_adel_of_none _ _ _ (I4 i hl)
      | none =>
        refine ⟨?_, I2, ?_, I4⟩
        · intro i hp
          obtain ⟨h1, h2⟩ := I1 i hp
          exact ⟨aget_adel_of_none _ _ _ h1, h2⟩
        · intro i tid2 ht2
          by_cases hij : i = j
          · subst hij; rw [hT] at ht2; cases ht2
          · have h3 := I3 i tid2 ht2
            intro hc
            rw [aget_adel_ne _ _ _ hij] at hc
            exact h3 hc
    · simp only [hLF, hA, if_false, Bool.false_eq_true]
      cases hP : aget s.pendingNotes j with
      | none => exact ⟨I1, I2, I3, I4⟩
      | some p =>
        refine ⟨?_, I2, I3, I4⟩
        intro i hp
        by_cases hij : i = j
        · subst hij
          exact I1 i (by rw [hP]; simp)
        · rw [aget_aset_ne _ _ _ _ hij] at hp
          exact I1 i hp

theorem inv_resumePlayNote (s : Exp.Config) (t : Nat) (h : Exp.Inv s) :
    Exp.Inv (Exp.resumePlayNote s t) := by
  obtain ⟨I1, I2, I3, I4⟩ := h
  unfold Exp.resumePlayNote
  cases hO : aget s.outstanding t with
  | none => exact ⟨I1, I2, I3, I4⟩
  | some j =>
    dsimp only
    cases hP : aget s.pendingNotes j with
    | none =>
      refine ⟨?_, I2, I3, I4⟩
      intro i hp
      by_cases hij : i = j
      · subst hij; rw [aget_adel_self] at hp; exact absurd rfl hp
      · rw [aget_adel_ne _ _ _ hij] at hp
        exact I1 i hp
    | some p =>
      by_cases hc : p.shouldCancel = true
      · simp only [hc, if_true]
        refine ⟨?_, I2, I3, I4⟩
        intro i hp
        by_cases hij : i = j
        · subst hij; rw [aget_adel_self] at hp; exact absurd rfl hp
        · rw [aget_adel_ne _ _ _ hij] at hp
          exact I1 i hp
      · simp only [hc, if_false, Bool.false_eq_true]
        have hAj : aget s.activeNotes j = none := (I1 j (by rw [hP]; simp)).1
        have hLj : aget s.lockedDrones j = none := (I1 j (by rw [hP]; simp)).2
        have hTj : aget s.lockTimeouts j = none := by
          cases hT : aget s.lockTimeouts j with
          | none => rfl
          | some tid => exact absurd hAj (I3 j tid hT)
        refine ⟨?_, ?_, ?_, ?_⟩
        · intro i hp
          by_cases hij : i = j
          · subst hij; rw [aget_adel_self] at hp; exact absurd rfl hp
          · rw [aget_adel_ne _ _ _ hij] at hp
            obtain ⟨h1, h2⟩ := I1 i hp
            exact ⟨by rw [aget_aset_ne _ _ _ _ hij]; exact h1, h2⟩
        · intro tid2 i2 hm
          rcases mem_aset _ _ _ _ hm with he | hm2
          · simp only [Prod.mk.injEq] at he
            obtain ⟨he1, he2⟩ := he
            subst he1
            subst he2
            rw [aget_aset_self]
          · have ht2 := I2 tid2 i2 hm2
            by_cases hij : i2 = j
            · subst hij; rw [hTj] at ht2; cases ht2
            · rw [aget_aset_ne _ _ _ _ hij]; exact ht2
        · intro i2 tid2 ht2
          by_cases hij : i2 = j
          · subst hij
            rw [aget_aset_self]
            simp
          · rw [aget_aset_ne _ _ _ _ hij] at ht2
            have h3 := I3 i2 tid2 ht2
            rw [aget_aset_ne _ _ _ _ hij]
            exact h3
        · intro i2 hl
          by_cases hij : i2 = j
          · subst hij; rw [hLj] at hl; exact absurd rfl hl
          · rw [aget_aset_ne _ _ _ _ hij]
            exact I4 i2 hl

theorem inv_fireTimer (s : Exp.Config) (tid : Nat) (h : Exp.Inv s) :
    Exp.Inv (Exp.fireTimer s tid) := by
  obtain ⟨I1, I2, I3, I4⟩ := h
  unfold Exp.fireTimer
  cases hA : aget s.armed tid with
  | none => exact ⟨I1, I2, I3, I4⟩
  | some j =>
    exact inv_lockDrone _ j ⟨I1, fun tid2 i2 hm => I2 tid2 i2 (mem_adel _ _ _ hm), I3, I4⟩

theorem inv_step (s : Exp.Config) (e : Exp.Ev) (h : Exp.Inv s) :
    Exp.Inv (Exp.step s e) := by
  cases e with
  | start i => exact inv_playNote s i h
  | resolve t => exact inv_resumePlayNote s t h
  | stop i f => exact inv_stopNote s i f h
  | lock i => exact inv_lockDrone s i h
  | unlock i => exact inv_unlockDrone s i h
  | timer tid => exact inv_fireTimer s tid h
  | stopAll => exact inv_stopAllNotes s h

theorem inv_run_from (s : Exp.Config) (es : List Exp.Ev) (h : Exp.Inv s) :
    Exp.Inv (Exp.run s es) := by
  induction es generalizing s with
  | nil => exact h
  | cons e t ih => exact ih _ (inv_step s e h)

theorem inv_init : Exp.Inv Exp.init := by
  refine ⟨?_, ?_, ?_, ?_⟩
  · intro i hp; simp [Exp.init, aget] at hp
  · intro tid i hm; simp [Exp.init] at hm
  · intro i tid ht; simp [Exp.init, aget] at ht
  · intro i hl; simp [Exp.init, aget] at hl

theorem inv_run (es : List Exp.Ev) : Exp.Inv (Exp.run Exp.init es) :=
  inv_run_from Exp.init es inv_init

theorem cancelInert_playNote (s : Exp.Config) (i j : Nat) (hne : j ≠ i)
    (h : Exp.cancelInert s i) : Exp.cancelInert (Exp.playNote s j) i := by
  obtain ⟨h1, h2⟩ := h
  unfold Exp.playNote
  by_cases hL : ahas s.lockedDrones j = true
  · simp only [hL, if_true]; exact ⟨h1, h2⟩
  · by_cases hA : ahas s.activeNotes j = true
    · simp only [hL, hA, if_true, if_false, Bool.false_eq_true]; exact ⟨h1, h2⟩
    · simp only [hL, hA, if_false, Bool.false_eq_true]
      refine ⟨?_, h2⟩
      intro p hp
      rw [aget_aset_ne _ _ _ _ (Ne.symm hne)] at hp
      exact h1 p hp

theorem cancelInert_lockDrone (s : Exp.Config) (i j : Nat)
    (h : Exp.cancelInert s i) : Exp.cancelInert (Exp.lockDrone s j) i := by
  unfold Exp.lockDrone
  cases hAj : aget s.activeNotes j with
  | none => exact h
  | some n =>
    dsimp only
    cases hT : aget s.lockTimeouts j with
    | none => exact h
    | some tid => exact h

theorem cancelInert_unlockDrone (s : Exp.Config) (i j : Nat)
    (h : Exp.cancelInert s i) : Exp.cancelInert (Exp.unlockDrone s j) i := by
  unfold Exp.unlockDrone
  cases hLj : aget s.lockedDrones j with
  | none => exact h
  | some n => exact ⟨h.1, aget_adel_of_none _ _ _ h.2⟩

theorem cancelInert_stopNote (s : Exp.Config) (i j : Nat) (f : Bool)
    (h : Exp.cancelInert s i) : Exp.cancelInert (Exp.stopNote s j f) i := by
  obtain ⟨h1, h2⟩ := h
  unfold Exp.stopNote
  by_cases hLF : (ahas s.lockedDrones j && !f) = true
  · simp only [hLF, if_true]; exact ⟨h1, h2⟩
  · by_cases hA : ahas s.activeNotes j = true
    · simp only [hLF, hA, if_true, if_false, Bool.false_eq_true]
      cases hT : aget s.lockTimeouts j with
      | some tid => exact ⟨h1, aget_adel_of_none _ _ _ h2⟩
      | none => exact ⟨h1, aget_adel_of_none _ _ _ h2⟩
    · simp only [hLF, hA, if_false, Bool.false_eq_true]
      cases hP : aget s.pendingNotes j with
      | none => exact ⟨h1, h2⟩
      | some p =>
        refine ⟨?_, h2⟩
        intro q hq
        by_cases hij : i = j
        · subst hij
          rw [aget_aset_self] at hq
          injection hq with he
          rw [← he]
        · rw [aget_aset_ne _ _ _ _ hij] at hq
          exact h1 q hq

theorem cancelInert_resumePlayNote (s : Exp.Config) (i t : Nat)
    (h : Exp.cancelInert s i) : Exp.cancelInert (Exp.resumePlayNote s t) i := by
  obtain ⟨h1, h2⟩ := h
  unfold Exp.resumePlayNote
  cases hO : aget s.outstanding t with
  | none => exact ⟨h1, h2⟩
  | some j =>
    dsimp only
    cases hP : aget s.pendingNotes j with
    | none =>
      refine ⟨?_, h2⟩
      intro p hp
      by_cases hij : i = j
      · subst hij; rw [aget_adel_self] at hp; cases hp
      · rw [aget_adel_ne _ _ _ hij] at hp
        exact h1 p hp
    | some p =>
      by_cases hc : p.shouldCancel = true
      · simp only [hc, if_true]
        refine ⟨?_, h2⟩
        intro q hq
        by_cases hij : i = j
        · subst hij; rw [aget_adel_self] at hq; cases hq
        · rw [aget_adel_ne _ _ _ hij] at hq
          exact h1 q hq
      · simp only [hc, if_false, Bool.false_eq_true]
        have hij : j ≠ i := by
          intro hh
          subst hh
          exact hc (h1 p hP)
        refine ⟨?_, ?_⟩
        · intro q hq
          rw [aget_adel_ne _ _ _ (Ne.symm hij)] at hq
          exact h1 q hq
        · rw [aget_aset_ne _ _ _ _ (Ne.symm hij)]
          exact h2

theorem cancelInert_fireTimer (s : Exp.Config) (i tid : Nat)
    (h : Exp.cancelInert s i) : Exp.cancelInert (Exp.fireTimer s tid) i := by
  unfold Exp.fireTimer
  cases hA : aget s.armed tid with
  | none => exact h
  | some j => exact cancelInert_lockDrone _ i j h

theorem cancelInert_stopAllNotes (s : Exp.Config) (i : Nat) :
    Exp.cancelInert (Exp.stopAllNotes s) i := by
  unfold Exp.stopAllNotes
  exact ⟨by intro p hp; simp [aget] at hp, by simp [aget]⟩

theorem cancelInert_step (s : Exp.Config) (i : Nat) (e : Exp.Ev)
    (hne : e ≠ Exp.Ev.start i) (h : Exp.cancelInert s i) :
    Exp.cancelInert (Exp.step s e) i := by
  cases e with
  | start j => exact cancelInert_playNote s i j (fun hh => hne (by rw [hh])) h
  | resolve t => exact cancelInert_resumePlayNote s i t h
  | stop j f => exact cancelInert_stopNote s i j f h
  | lock j => exact cancelInert_lockDrone s i j h
  | unlock j => exact cancelInert_unlockDrone s i j h
  | timer tid => exact cancelInert_fireTimer s i tid h
  | stopAll => exact cancelInert_stopAllNotes s i

theorem playNote_log (s : Exp.Config) (j : Nat) :
    (Exp.playNote s j).log = s.log := by
  unfold Exp.playNote
  split_ifs <;> rfl

theorem lockDrone_log (s : Exp.Config) (j : Nat) :
    (Exp.lockDrone s j).log = s.log := by
  unfold Exp.lockDrone
  cases hAj : aget s.activeNotes j with
  | none => rfl
  | some n =>
    dsimp only
    cases hT : aget s.lockTimeouts j with
    | none => rfl
    | some tid => rfl

theorem attack_mem_stopNote (s : Exp.Config) (i j : Nat) (f : Bool)
    (hm : SEv.attack i ∈ (Exp.stopNote s j f).log) : SEv.attack i ∈ s.log := by
  unfold Exp.stopNote at hm
  by_cases hLF : (ahas s.lockedDrones j && !f) = true
  · simpa [hLF] using hm
  · by_cases hA : ahas s.activeNotes j = true
    · simp only [hLF, hA, if_true, if_false, Bool.false_eq_true] at hm
      cases hT : aget s.lockTimeouts j <;> rw [hT] at hm <;> simpa using hm
    · simp only [hLF, hA, if_false, Bool.false_eq_true] at hm
      cases hP : aget s.pendingNotes j <;> rw [hP] at hm <;> simpa using hm

theorem attack_mem_unlockDrone (s : Exp.Config) (i j : Nat)
    (hm : SEv.attack i ∈ (Exp.unlockDrone s j).log) : SEv.attack i ∈ s.log := by
  unfold Exp.unlockDrone at hm
  cases hLj : aget s.lockedDrones j <;> rw [hLj] at hm <;> simpa using hm

theorem attack_mem_fireTimer (s : Exp.Config) (i tid : Nat)
    (hm : SEv.attack i ∈ (Exp.fireTimer s tid).log) : SEv.attack i ∈ s.log := by
  unfold Exp.fireTimer at hm
  cases hA : aget s.armed tid with
  | none => rw [hA] at hm; simpa using hm
  | some j =>
    rw [hA] at hm
    dsimp only at hm
    rw [lockDrone_log] at hm
    exact hm

theorem attack_mem_stopAllNotes (s : Exp.Config) (i : Nat)
    (hm : SEv.attack i ∈ (Exp.stopAllNotes s).log) : SEv.attack i ∈ s.log := by
  unfold Exp.stopAllNotes at hm
  simp only [List.mem_append, List.mem_map] at hm
  rcases hm with (hm | ⟨p, _, hp⟩) | ⟨p, _, hp⟩
  · exact hm
  · cases hp
  · cases hp

theorem attack_mem_resumePlayNote (s : Exp.Config) (i t : Nat)
    (h : Exp.cancelInert s i)
    (hm : SEv.attack i ∈ (Exp.resumePlayNote s t).log) : SEv.attack i ∈ s.log := by
  obtain ⟨h1, h2⟩ := h
  unfold Exp.resumePlayNote at hm
  cases hO : aget s.outstanding t with
  | none => rw [hO] at hm; exact hm
  | some j =>
    rw [hO] at hm
    dsimp only at hm
    cases hP : aget s.pendingNotes j with
    | none => rw [hP] at hm; exact hm
    | some p =>
      rw [hP] at hm
      by_cases hc : p.shouldCancel = true
      · simpa [hc] using hm
      · simp only [hc, if_false, Bool.false_eq_true] at hm
        have hij : j ≠ i := by
          intro hh
          subst hh
          exact hc (h1 p hP)
        simp only [List.mem_append, List.mem_singleton] at hm
        rcases hm with hm | hm
        · exact hm
        · injection hm with he
          exact absurd he.symm hij

theorem attack_mem_step (s : Exp.Config) (i : Nat) (e : Exp.Ev)
    (h : Exp.cancelInert s i)
    (hm : SEv.attack i ∈ (Exp.step s e).log) : SEv.attack i ∈ s.log := by
  cases e with
  | start j => rw [Exp.step, playNote_log] at hm; exact hm
  | resolve t => exact attack_mem_resumePlayNote s i t h hm
  | stop j f => exact attack_mem_stopNote s i j f hm
  | lock j => rw [Exp.step, lockDrone_log] at hm; exact hm
  | unlock j => exact attack_mem_unlockDrone s i j hm
  | timer tid => exact attack_mem_fireTimer s i tid hm
  | stopAll => exact attack_mem_stopAllNotes s i hm

theorem cancelInert_run (s : Exp.Config) (i : Nat) (es : List Exp.Ev)
    (h : Exp.cancelInert s i) (hes : Exp.Ev.start i ∉ es) :
    Exp.cancelInert (Exp.run s es) i ∧
      (SEv.attack i ∈ (Exp.run s es).log → SEv.attack i ∈ s.log) := by
  induction es generalizing s with
  | nil => exact ⟨h, id⟩
  | cons e t ih =>
    have hne : e ≠ Exp.Ev.start i := by
      intro hh
      exact hes (by rw [hh]; exact List.mem_cons_self _ _)
    have hes2 : Exp.Ev.start i ∉ t := fun hh => hes (List.mem_cons_of_mem _ hh)
    obtain ⟨ha, hb⟩ := ih (Exp.step s e) (cancelInert_step s i e hne h) hes2
    exact ⟨ha, fun hm => attack_mem_step s i e h (hb hm)⟩

/-- C3 amended: in every reachable engine state, `pendingNotes` is
disjoint from both `activeNotes` and `lockedDrones` (a pending index is
neither active nor locked); but the claimed pairwise disjointness of all
three maps fails: `activeNotes` and `lockedDrones` are not disjoint,
because `lockDrone` copies a locked index's note into `lockedDrones`
without removing it from `activeNotes` (see the counterexample), and it
stays in both until `unlockDrone`, a forced stop or `stopAllNotes`. -/
theorem spec_C3_amended (es : List Exp.Ev) (i : Nat)
    (hp : aget (Exp.run Exp.init es).pendingNotes i ≠ none) :
    aget (Exp.run Exp.init es).activeNotes i = none ∧
    aget (Exp.run Exp.init es).lockedDrones i = none :=
  (inv_run es).1 i hp

/-- C3 amended witness: the theorem applied at the reachable state after
start 0, whose slice 0 is pending. -/
theorem spec_C3_amended_witness :
    aget (Exp.run Exp.init [Exp.Ev.start 0]).pendingNotes 0 ≠ none ∧
    aget (Exp.run Exp.init [Exp.Ev.start 0]).activeNotes 0 = none ∧
    aget (Exp.run Exp.init [Exp.Ev.start 0]).lockedDrones 0 = none := by
  have hp : aget (Exp.run Exp.init [Exp.Ev.start 0]).pendingNotes 0 ≠ none := by decide
  obtain ⟨h1, h2⟩ := spec_C3_amended [Exp.Ev.start 0] 0 hp
  exact ⟨hp, h1, h2⟩

/-- C1 amended: `stopNote` on a Pending index (one neither active nor
locked) marks its pending entry cancelled; from any cancelled state, as
long as no further `playNote(index)` is issued, the index never becomes
Active and no attack for it is ever emitted, and resolving the in-flight
continuation deletes the pending entry and leaves the index Idle with an
unchanged log.  The guarantee is conditional on no intervening start:
the counterexample shows that a second `playNote(index)` issued before
the continuation resolves overwrites the pending entry with an
uncancelled one, after which the original in-flight continuation
performs the attack and the Active transition. -/
theorem spec_C1_amended :
    (∀ (s : Exp.Config) (i : Nat) (p : Exp.PendingEntry),
      aget s.lockedDrones i = none → aget s.activeNotes i = none →
      aget s.pendingNotes i = some p →
      Exp.cancelInert (Exp.stopNote s i false) i) ∧
    (∀ (s : Exp.Config) (i : Nat) (es : List Exp.Ev),
      Exp.cancelInert s i → Exp.Ev.start i ∉ es →
      aget (Exp.run s es).activeNotes i = none ∧
      (SEv.attack i ∈ (Exp.run s es).log → SEv.attack i ∈ s.log)) ∧
    (∀ (s : Exp.Config) (i t : Nat),
      Exp.cancelInert s i → aget s.outstanding t = some i →
      aget (Exp.resumePlayNote s t).pendingNotes i = none ∧
      aget (Exp.resumePlayNote s t).activeNotes i = none ∧
      (Exp.resumePlayNote s t).log = s.log) := by
  refine ⟨?_, ?_, ?_⟩
  · intro s i p hL hA hP
    unfold Exp.stopNote
    have hL2 : ahas s.lockedDrones i = false := by simp [ahas, hL]
    have hA2 : ahas s.activeNotes i = false := by simp [ahas, hA]
    simp only [hL2, hA2, Bool.false_and, if_false, Bool.false_eq_true]
    rw [hP]
    refine ⟨?_, hA⟩
    intro q hq
    rw [aget_aset_self] at hq
    injection hq with he
    rw [← he]
  · intro s i es h hes
    obtain ⟨ha, hb⟩ := cancelInert_run s i es h hes
    exact ⟨ha.2, hb⟩
  · intro s i t h hO
    unfold Exp.resumePlayNote
    rw [hO]
    dsimp only
    cases hP : aget s.pendingNotes i with
    | none => exact ⟨aget_adel_self _ _, h.2, rfl⟩
    | some p =>
      have hc := h.1 p hP
      simp only [hc, if_true]
      exact ⟨aget_adel_self _ _, h.2, trivial⟩

/-- C1 amended witness: the theorem applied after start 0 and a stop
while Pending: the stop leaves slice 0 cancel-inert, resolving the
continuation yields no Active transition, and the resume deletes the
pending entry. -/
theorem spec_C1_amended_witness :
    Exp.cancelInert (Exp.stopNote (Exp.run Exp.init [Exp.Ev.start 0]) 0 false) 0 ∧
    aget (Exp.run (Exp.run Exp.init [Exp.Ev.start 0, Exp.Ev.stop 0 false])
        [Exp.Ev.resolve 0]).activeNotes 0 = none ∧
    aget (Exp.resumePlayNote
        (Exp.run Exp.init [Exp.Ev.start 0, Exp.Ev.stop 0 false]) 0).pendingNotes 0 = none := by
  have hL : aget (Exp.run Exp.init [Exp.Ev.start 0]).lockedDrones 0 = none := by decide
  have hA : aget (Exp.run Exp.init [Exp.Ev.start 0]).activeNotes 0 = none := by decide
  have hP : aget (Exp.run Exp.init [Exp.Ev.start 0]).pendingNotes 0
      = some ⟨false, getNote 0⟩ := by decide
  have hC : Exp.cancelInert (Exp.run Exp.init [Exp.Ev.start 0, Exp.Ev.stop 0 false]) 0 := by
    constructor
    · intro p hp
      have hPP : aget (Exp.run Exp.init
          [Exp.Ev.start 0, Exp.Ev.stop 0 false]).pendingNotes 0
          = some ⟨true, getNote 0⟩ := by decide
      rw [hPP] at hp
      injection hp with he
      rw [← he]
    · decide
  have hO : aget (Exp.run Exp.init
      [Exp.Ev.start 0, Exp.Ev.stop 0 false]).outstanding 0 = some 0 := by decide
  refine ⟨spec_C1_amended.1 (Exp.run Exp.init [Exp.Ev.start 0]) 0 ⟨false, getNote 0⟩ hL hA hP,
          (spec_C1_amended.2.1 (Exp.run Exp.init [Exp.Ev.start 0, Exp.Ev.stop 0 false]) 0
            [Exp.Ev.resolve 0] hC (by decide)).1,
          (spec_C1_amended.2.2 (Exp.run Exp.init [Exp.Ev.start 0, Exp.Ev.stop 0 false]) 0 0
            hC hO).1⟩

/-- C5 amended: `stopAllNotes` empties the pending, active and locked
collections and the timeout table from any state, and in every reachable
state it cancels every scheduled auto-lock timer (no armed timer
survives, so every timer outstanding at the time of the call is dead
rather than a live no-op).  Every outstanding start continuation
resolves as a no-op — no attack, index stays out of Active — provided no
new `playNote` for its index is issued first; the counterexample shows a
new start re-arms the pending entry and the outstanding continuation
then performs the attack. -/
theorem spec_C5_amended :
    (∀ s : Exp.Config,
      (Exp.stopAllNotes s).pendingNotes = [] ∧
      (Exp.stopAllNotes s).activeNotes = [] ∧
      (Exp.stopAllNotes s).lockedDrones = [] ∧
      (Exp.stopAllNotes s).lockTimeouts = []) ∧
    (∀ es : List Exp.Ev, (Exp.stopAllNotes (Exp.run Exp.init es)).armed = []) ∧
    (∀ (s : Exp.Config) (i : Nat) (es : List Exp.Ev),
      Exp.Ev.start i ∉ es →
      aget (Exp.run (Exp.stopAllNotes s) es).activeNotes i = none ∧
      (SEv.attack i ∈ (Exp.run (Exp.stopAllNotes s) es).log →
        SEv.attack i ∈ (Exp.stopAllNotes s).log)) := by
  refine ⟨?_, ?_, ?_⟩
  · intro s
    exact ⟨rfl, rfl, rfl, rfl⟩
  · intro es
    exact armed_stopAllNotes _ (inv_run es)
  · intro s i es hes
    obtain ⟨ha, hb⟩ := cancelInert_run (Exp.stopAllNotes s) i es
      (cancelInert_stopAllNotes s i) hes
    exact ⟨ha.2, hb⟩

/-- C5 amended witness: the theorem applied after start 0 / resolve 0
(armed timer cancelled by stopAllNotes) and after start 0 (outstanding
continuation resolves with slice 0 staying out of Active). -/
theorem spec_C5_amended_witness :
    (Exp.stopAllNotes (Exp.run Exp.init [Exp.Ev.start 0, Exp.Ev.resolve 0])).armed = [] ∧
    aget (Exp.run (Exp.stopAllNotes (Exp.run Exp.init [Exp.Ev.start 0]))
        [Exp.Ev.resolve 0]).activeNotes 0 = none := by
  refine ⟨spec_C5_amended.2.1 [Exp.Ev.start 0, Exp.Ev.resolve 0], ?_⟩
  exact (spec_C5_amended.2.2 (Exp.run Exp.init [Exp.Ev.start 0]) 0
    [Exp.Ev.resolve 0] (by decide)).1

theorem jsModR_mem (a b : ℝ) (ha : 0 ≤ a) (hb : 0 < b) :
    0 ≤ jsModR a b ∧ jsModR a b < b := by
  have hbne : b ≠ 0 := ne_of_gt hb
  have hdiv : 0 ≤ a / b := div_nonneg ha hb.le
  unfold jsModR
  rw [if_pos hdiv]
  have heq : a - b * ((⌊a / b⌋ : ℤ) : ℝ) = b * Int.fract (a / b) := by
    rw [Int.fract, mul_sub, mul_div_cancel₀ _ hbne]
  rw [heq]
  constructor
  · exact mul_nonneg hb.le (Int.fract_nonneg _)
  · have h := mul_lt_mul_of_pos_left (Int.fract_lt_one (a / b)) hb
    simpa using h

theorem getAngleFromPoint_bounds (x y cx cy : ℝ) :
    -180 ≤ getAngleFromPoint x y cx cy ∧ getAngleFromPoint x y cx cy ≤ 180 := by
  have hpi := Real.pi_pos
  unfold getAngleFromPoint
  constructor
  · rw [le_div_iff hpi]
    have h := Complex.neg_pi_lt_arg (((x - cx : ℝ) : ℂ) + ((y - cy : ℝ) : ℂ) * Complex.I)
    nlinarith
  · rw [div_le_iff hpi]
    have h := Complex.arg_le_pi (((x - cx : ℝ) : ℂ) + ((y - cy : ℝ) : ℂ) * Complex.I)
    nlinarith

/-- C10: for every point, center, slice count n with n at least 1 and
rotation in [0, 360), `getSliceIndexAtPoint` returns an integer in
[0, n): the hit-test never produces a negative or out-of-range slice
index. -/
theorem spec_C10 (x y cx cy : ℝ) (n : ℕ) (r : ℝ)
    (hn : 1 ≤ n) (hr0 : 0 ≤ r) (hr1 : r < 360) :
    0 ≤ getSliceIndexAtPoint x y cx cy n r ∧
    getSliceIndexAtPoint x y cx cy n r < (n : ℤ) := by
  obtain ⟨hb1, hb2⟩ := getAngleFromPoint_bounds x y cx cy
  have h1 := jsModR_mem (getAngleFromPoint x y cx cy + 360) 360 (by linarith) (by norm_num)
  have h2 := jsModR_mem (jsModR (getAngleFromPoint x y cx cy + 360) 360 - r + 360) 360
    (by linarith [h1.1]) (by norm_num)
  have hn1 : (1 : ℝ) ≤ (n : ℝ) := by exact_mod_cast hn
  have hden : (0 : ℝ) < 360 / (n : ℝ) := by positivity
  unfold getSliceIndexAtPoint
  constructor
  · exact Int.floor_nonneg.mpr (div_nonneg h2.1 hden.le)
  · rw [Int.floor_lt]
    push_cast
    rw [div_lt_iff hden]
    have : (n : ℝ) * (360 / (n : ℝ)) = 360 := by field_simp
    rw [this]
    exact h2.2

/-- C10 witness: the theorem applied at the point (1, 0), center (0, 0),
8 slices, rotation 0. -/
theorem spec_C10_witness :
    1 ≤ (8 : ℕ) ∧ (0 : ℝ) ≤ 0 ∧ (0 : ℝ) < 360 ∧
    (0 ≤ getSliceIndexAtPoint 1 0 0 0 8 0 ∧
      getSliceIndexAtPoint 1 0 0 0 8 0 < (8 : ℤ)) :=
  ⟨by norm_num, le_refl 0, by norm_num,
    spec_C10 1 0 0 0 8 0 (by norm_num) (le_refl 0) (by norm_num)⟩

/-- C8: `getSliceIndexAtPoint` computes the polar angle of the point
(Math.atan2 in degrees), normalizes it to [0, 360) by adding 360 and
taking the JS remainder by 360, subtracts the rotation with another
mod-360 normalization, divides by the per-slice angle 360/n and floors
(first conjunct, the definitional pipeline); in particular, with
sliceCount 8 and rotation 0, a point at polar angle 50 degrees from the
center lands in slice floor(50/45) = 1 (second conjunct). -/
theorem spec_C8 :
    (∀ (x y cx cy : ℝ) (n : ℕ) (r : ℝ),
      getSliceIndexAtPoint x y cx cy n r
        = ⌊jsModR (jsModR (getAngleFromPoint x y cx cy + 360) 360 - r + 360) 360
            / (360 / (n : ℝ))⌋) ∧
    (∀ cx cy : ℝ,
      getSliceIndexAtPoint (cx + Real.cos (5 * Real.pi / 18))
        (cy + Real.sin (5 * Real.pi / 18)) cx cy 8 0 = 1) := by
  have hpi := Real.pi_pos
  refine ⟨fun x y cx cy n r => rfl, ?_⟩
  intro cx cy
  have hang : getAngleFromPoint (cx + Real.cos (5 * Real.pi / 18))
      (cy + Real.sin (5 * Real.pi / 18)) cx cy = 50 := by
    unfold getAngleFromPoint
    have hx : (cx + Real.cos (5 * Real.pi / 18)) - cx = Real.cos (5 * Real.pi / 18) := by ring
    have hy : (cy + Real.sin (5 * Real.pi / 18)) - cy = Real.sin (5 * Real.pi / 18) := by ring
    rw [hx, hy, Complex.ofReal_cos, Complex.ofReal_sin,
        Complex.arg_cos_add_sin_mul_I ⟨by nlinarith, by nlinarith⟩]
    field_simp
    ring
  unfold getSliceIndexAtPoint
  rw [hang]
  dsimp only
  have h1 : jsModR (50 + 360 : ℝ) 360 = 50 := by
    unfold jsModR
    rw [if_pos (by norm_num)]
    norm_num
  rw [h1]
  have h2 : jsModR (50 - 0 + 360 : ℝ) 360 = 50 := by
    unfold jsModR
    rw [if_pos (by norm_num)]
    norm_num
  rw [h2]
  have h3 : (360 : ℝ) / ((8 : ℕ) : ℝ) = 45 := by norm_num
  rw [h3]
  have h4 : (50 : ℝ) / 45 = 10 / 9 := by norm_num
  rw [h4]
  norm_num

